import Mathlib

/-!
Shallow embedding of the token analysis pipeline of the wallets_scan_sol
repository (src/app/models.py, src/app/detector.py, src/app/storage.py,
src/app/helius_client.py), together with theorems settling the frozen
claims about it.

Conventions of the embedding:
* Python ints are modelled as Lean Int (timestamps, slots, lamport amounts);
  counts are Nat where the source can only produce non-negative values.
* Python floats arising from exact division by 10^9 are modelled as Rat:
  the heuristics only divide and compare, so the rational model matches the
  intended arithmetic of the source.
* Fallible operations are modelled with Except String / Option; an
  exception swallowed by a try/except block in the source is modelled by a
  total function that pattern-matches on the Except value.
* Uninterpreted passthrough fields of the Helius payload (events,
  instructions, transactionError) are omitted: no code under analysis
  reads them.
-/

/-- Model of models.py RawTokenAmount. -/
structure RawTokenAmount where
  decimals : Int
  tokenAmount : String
deriving DecidableEq, Repr

/-- Model of models.py TokenBalanceChange. -/
structure TokenBalanceChange where
  mint : String
  rawTokenAmount : RawTokenAmount
  tokenAccount : String
  userAccount : String
deriving DecidableEq, Repr

/-- Model of models.py AccountData. -/
structure AccountData where
  account : String
  nativeBalanceChange : Int
  tokenBalanceChanges : List TokenBalanceChange
deriving DecidableEq, Repr

/-- Model of models.py NativeTransfer. -/
structure NativeTransfer where
  amount : Int
  fromUserAccount : String
  toUserAccount : String
deriving DecidableEq, Repr

/-- Model of models.py TokenTransfer (tokenAmount is a Python float,
modelled as Rat). -/
structure TokenTransfer where
  fromTokenAccount : String
  fromUserAccount : String
  mint : String
  toTokenAccount : String
  toUserAccount : String
  tokenAmount : Rat
  tokenStandard : String
deriving DecidableEq, Repr

/-- Model of models.py HeliusTransaction (interpreted fields; the
description, fee, feePayer, source and type scalars are passthrough
metadata kept for fidelity, the Dict-typed passthroughs are omitted). -/
structure HeliusTransaction where
  accountData : List AccountData := []
  description : String := ""
  fee : Int := 0
  feePayer : String := ""
  nativeTransfers : List NativeTransfer := []
  signature : String
  slot : Int := 0
  source : String := ""
  timestamp : Int := 0
  tokenTransfers : List TokenTransfer := []
  type : String := ""
deriving DecidableEq, Repr

/-- Model of models.py ScamDetectionResult. -/
structure ScamDetectionResult where
  mint : String
  is_scam : Bool
  reasons : List String := []
  flags : List (String × Bool) := []
  has_bundle : Bool := false
  has_large_purchase : Bool := false
  invalid_metadata_url : Bool := false
  invalid_mint_suffix : Bool := false
  single_token_dev : Option Bool := none
  max_purchase_sol : Option Rat := none
  bundle_index_gap : Option Nat := none
  total_transactions : Nat := 0
  first_seen : Option Int := none
  last_updated : Option Int := none
deriving DecidableEq, Repr

/-- Model of models.py TokenMetadata. -/
structure TokenMetadata where
  mint : String
  name : Option String := none
  symbol : Option String := none
  uri : Option String := none
  creator : Option String := none
deriving DecidableEq, Repr

/-! Constants of detector.py. -/

def LAMPORTS_PER_SOL : Rat := 1000000000

def LARGE_PURCHASE_THRESHOLD_SOL : Rat := 30

def PUMP_SUFFIX : String := "pump"

/-- Python str.endswith over the character lists of the strings (spelled
out so that concrete instances reduce in the kernel): the last
characters of s are exactly those of p. -/
def strEndsWith (s p : String) : Bool :=
  s.data.reverse.take p.data.length = p.data.reverse

/-- Python str.lower over the character list (the strings compared by the
code are ASCII, where Char.toLower agrees with str.lower). -/
def strToLower (s : String) : String :=
  String.mk (s.data.map Char.toLower)

/-- Python str.startswith over the character lists of the strings: the
first characters of s are exactly those of p. -/
def strStartsWith (s p : String) : Bool :=
  s.data.take p.data.length = p.data

/-- Model of ScamDetector._check_mint_suffix: true when the mint string
does not end with the pump suffix. -/
def checkMintSuffix (mint : String) : Bool :=
  !(strEndsWith mint PUMP_SUFFIX)

/-- Ordered-set insertion: append the element unless already present.
This is how both the slots_txs dict keys and the Python mint set are
accumulated in the model. -/
def listInsert {α : Type} [DecidableEq α] (xs : List α) (x : α) : List α :=
  if x ∈ xs then xs else xs ++ [x]

/-- The keys of the slots_txs dict built by ScamDetector._check_bundle_pattern,
in Python dict insertion order: each slot listed once, at its first
occurrence in the transaction list. -/
def slotKeys (transactions : List HeliusTransaction) : List Int :=
  transactions.foldl (fun ks tx => listInsert ks tx.slot) []

/-- The group of transactions stored under slot s in the slots_txs dict of
ScamDetector._check_bundle_pattern. -/
def slotGroup (transactions : List HeliusTransaction) (s : Int) :
    List HeliusTransaction :=
  transactions.filter (fun tx => tx.slot = s)

/-- Model of ScamDetector._check_bundle_pattern: fewer than 2 transactions
yields (false, none); otherwise the transactions are grouped by slot in
first-occurrence order and the first group holding at least 2 transactions
yields (true, its size). -/
def checkBundlePattern (transactions : List HeliusTransaction) :
    Bool × Option Nat :=
  if transactions.length < 2 then (false, none)
  else
    match (slotKeys transactions).find?
        (fun s => 2 ≤ (slotGroup transactions s).length) with
    | some s => (true, some (slotGroup transactions s).length)
    | none => (false, none)

/-- The per-transfer SOL amounts scanned by ScamDetector._check_large_purchase,
in scan order (outer loop over transactions, inner loop over native
transfers). -/
def solAmounts (transactions : List HeliusTransaction) : List Rat :=
  (transactions.flatMap (fun tx => tx.nativeTransfers)).map
    (fun tr => (tr.amount : Rat) / LAMPORTS_PER_SOL)

/-- Model of ScamDetector._check_large_purchase: running maximum over all
native-transfer SOL amounts starting from 0.0; the flag is a strict
comparison against the 30 SOL threshold, and the evidence is the maximum
when the flag is set and None otherwise. -/
def checkLargePurchase (transactions : List HeliusTransaction) :
    Bool × Option Rat :=
  let maxSol : Rat :=
    (solAmounts transactions).foldl
      (fun m s => if m < s then s else m) 0
  if LARGE_PURCHASE_THRESHOLD_SOL < maxSol
  then (true, some maxSol) else (false, none)

/-- Model of HeliusClient.get_token_metadata. The network interaction is
abstracted as an Except value: error for any HTTP failure or exception
raised during the request, ok md for a successful fetch parsed into
metadata. An empty API key short-circuits to None, and every exception is
caught inside the client and turned into None. -/
def getTokenMetadata (apiKey : String)
    (response : Except String (Option TokenMetadata)) :
    Option TokenMetadata :=
  if apiKey = "" then none
  else
    match response with
    | Except.error _ => none
    | Except.ok md => md

/-- Model of ScamDetector._check_metadata_url over the outcome of the
awaited metadata fetch (Except.error models an exception propagating out
of the await, caught by the try/except of the source; ok carries the
returned Optional metadata). True exactly when metadata was returned with
a non-empty URI whose lowercasing does not start with the trusted
prefix. -/
def checkMetadataUrl (fetch : Except String (Option TokenMetadata)) : Bool :=
  match fetch with
  | Except.error _ => false
  | Except.ok none => false
  | Except.ok (some md) =>
    match md.uri with
    | none => false
    | some u =>
      if u = "" then false
      else !(strStartsWith (strToLower u) "https://ipfs.io/")

/-- Reason string appended by _analyze_token for the bundle heuristic. -/
def bundleReason (gap : Option Nat) : String :=
  "Бандл с девом (индекс: " ++
    (match gap with | some n => toString n | none => "None") ++ ")"

/-- Reason string appended by _analyze_token for the large-purchase
heuristic (the two-decimal float formatting of the source is rendered with
toString, which does not affect any claim). -/
def largePurchaseReason (maxSol : Option Rat) : String :=
  "Большая покупка: " ++
    (match maxSol with | some q => toString q | none => "None") ++ " SOL"

/-- Reason string appended by _analyze_token for the metadata heuristic. -/
def metadataReason : String :=
  "Некорректная URL метадаты (не ipfs.io)"

/-- Reason string appended by _analyze_token for the mint-suffix
heuristic (the quote characters around the suffix in the source f-string
are omitted; no claim inspects reason text). -/
def suffixReason : String :=
  "Минт не заканчивается на " ++ PUMP_SUFFIX

/-- Model of ScamDetector._analyze_token. The metadata fetch outcome for
the mint is passed explicitly; everything else follows the source line by
line: four heuristics in fixed order, each setting is_scam and appending
one reason when triggered, then the timestamp aggregates. -/
def analyzeToken (mint : String)
    (transactions : List HeliusTransaction)
    (fetch : Except String (Option TokenMetadata))
    (currentTx : HeliusTransaction) : ScamDetectionResult :=
  let cb := checkBundlePattern transactions
  let cl := checkLargePurchase transactions
  let invalidMetadata := checkMetadataUrl fetch
  let invalidSuffix := checkMintSuffix mint
  let isScam := cb.1 || cl.1 || invalidMetadata || invalidSuffix
  let reasons :=
    (if cb.1 then [bundleReason cb.2] else []) ++
    (if cl.1 then [largePurchaseReason cl.2] else []) ++
    (if invalidMetadata then [metadataReason] else []) ++
    (if invalidSuffix then [suffixReason] else [])
  let timestamps := transactions.map (fun tx => tx.timestamp)
  let firstSeen := timestamps.min?.getD currentTx.timestamp
  { mint := mint
    is_scam := isScam
    reasons := reasons
    flags := []
    has_bundle := cb.1
    has_large_purchase := cl.1
    invalid_metadata_url := invalidMetadata
    invalid_mint_suffix := invalidSuffix
    single_token_dev := none
    max_purchase_sol := cl.2
    bundle_index_gap := cb.2
    total_transactions := transactions.length
    first_seen := some firstSeen
    last_updated := some currentTx.timestamp }

/-- Addition of one mint reference to the accumulating Python set of
_extract_mints: the source guards with the truthiness of the mint field,
so the empty string contributes nothing. -/
def mintInsert (ms : List String) (s : String) : List String :=
  if s ≠ "" then listInsert ms s else ms

/-- Model of ScamDetector._extract_mints: a set accumulated over the token
transfers and then over every account's token balance changes, keeping
only truthy (non-empty) mint strings. The set is modelled as a
duplicate-free list in insertion order; the source returns list(set),
whose order is unspecified, and no claim depends on the order. -/
def extractMints (transaction : HeliusTransaction) : List String :=
  let ms := transaction.tokenTransfers.foldl
    (fun ms t => mintInsert ms t.mint) []
  transaction.accountData.foldl
    (fun ms a =>
      a.tokenBalanceChanges.foldl (fun ms b => mintInsert ms b.mint) ms)
    ms

/-! Storage model (storage.py). The per-mint transaction log is the parsed
content of the mint's JSON file; the results store is the in-memory cache
plus the persisted results file. File I/O succeeding is the normal path;
the results-file write takes an explicit failure switch so that the
try/except of save_result can be modelled faithfully. -/

/-- Body of Storage.add_transaction on the parsed log content: append the
transaction unless an existing entry already carries its signature. -/
def logAdd (log : List HeliusTransaction) (tx : HeliusTransaction) :
    List HeliusTransaction :=
  if log.any (fun t => t.signature = tx.signature) then log
  else log ++ [tx]

/-- Results store of storage.py: the in-memory _results_cache as an
insertion-ordered association list, and the persisted scam_results.json
content (none when the file has never been written). -/
structure ResultsStore where
  cache : List (String × ScamDetectionResult)
  file : Option (List (String × ScamDetectionResult))
deriving DecidableEq, Repr

/-- Update of a Python dict entry, keyed by mint: replace in place if the
key exists, else append. -/
def cachePut (cache : List (String × ScamDetectionResult))
    (mint : String) (r : ScamDetectionResult) :
    List (String × ScamDetectionResult) :=
  if cache.any (fun p => p.1 = mint) then
    cache.map (fun p => if p.1 = mint then (mint, r) else p)
  else cache ++ [(mint, r)]

/-- Model of Storage.save_result. The cache update precedes the try block;
writeOk models whether the file write inside the try block succeeds. On
failure the exception is caught, logged and swallowed, so the function
always returns ok and the file keeps its previous content. -/
def saveResult (store : ResultsStore) (r : ScamDetectionResult)
    (writeOk : Bool) : Except String ResultsStore :=
  let cache := cachePut store.cache r.mint r
  let written : Except String (Option (List (String × ScamDetectionResult))) :=
    if writeOk then Except.ok (some cache)
    else Except.error "Ошибка сохранения результата"
  match written with
  | Except.ok f => Except.ok { cache := cache, file := f }
  | Except.error _ => Except.ok { cache := cache, file := store.file }

/-- State shared by the pipeline: one transaction log per mint (the
transactions directory, keyed by file name) and the results store. -/
structure PipelineState where
  logs : String → List HeliusTransaction
  results : ResultsStore

/-- One iteration of the mint loop of ScamDetector.analyze_transaction:
append the incoming transaction to the mint's log, re-read the log,
evaluate the token, collect the result and save it. -/
def processMint (fetch : String → Except String (Option TokenMetadata))
    (writeOk : Bool) (tx : HeliusTransaction)
    (acc : List ScamDetectionResult × PipelineState) (mint : String) :
    Except String (List ScamDetectionResult × PipelineState) :=
  let st := acc.2
  let logs1 : String → List HeliusTransaction :=
    fun m => if m = mint then logAdd (st.logs mint) tx else st.logs m
  let tokenTransactions := logs1 mint
  let r := analyzeToken mint tokenTransactions (fetch mint) tx
  match saveResult st.results r writeOk with
  | Except.ok res1 =>
    Except.ok (acc.1 ++ [r], { logs := logs1, results := res1 })
  | Except.error e => Except.error e

/-- Model of ScamDetector.analyze_transaction: extract the mints, then run
the per-mint loop; an uncaught exception in the loop would propagate to
the caller through the Except channel. -/
def analyzeTransaction (fetch : String → Except String (Option TokenMetadata))
    (writeOk : Bool) (st : PipelineState) (tx : HeliusTransaction) :
    Except String (List ScamDetectionResult × PipelineState) :=
  (extractMints tx).foldlM (processMint fetch writeOk tx) ([], st)

/-! Interleaving model for the concurrency claim. Storage.add_transaction
holds no lock: it awaits a full read of the mint's file, checks the parsed
list for the signature, and awaits a full rewrite of the file from that
snapshot. Between the two awaits the event loop may run another task. Each
append task is therefore a two-step program over the shared file
content. -/

/-- One in-flight Storage.add_transaction call for a fixed mint: pc 0 is
before the file read (storage.py lines 46-53), pc 1 holds the parsed
snapshot and is before the dedup-check-and-rewrite (lines 55-60), pc 2 is
done. -/
structure AppendTask where
  tx : HeliusTransaction
  pc : Nat
  snap : List HeliusTransaction
deriving DecidableEq, Repr

/-- Initial task state for appending tx. -/
def appendTaskInit (tx : HeliusTransaction) : AppendTask :=
  { tx := tx, pc := 0, snap := [] }

/-- Run one step of an append task against the shared file content:
step 0 reads the file into the snapshot; step 1 rewrites the file with
snapshot plus tx unless the snapshot already holds the signature. -/
def stepAppend (file : List HeliusTransaction) (t : AppendTask) :
    List HeliusTransaction × AppendTask :=
  if t.pc = 0 then (file, { t with pc := 1, snap := file })
  else if t.pc = 1 then
    (logAdd t.snap t.tx, { t with pc := 2 })
  else (file, t)

/-- Two concurrent add_transaction calls for the same mint, driven by a
schedule: true runs one step of task A, false one step of task B. Returns
the final file content. -/
def runAppendSchedule (schedule : List Bool)
    (txA txB : HeliusTransaction) : List HeliusTransaction :=
  (schedule.foldl
    (fun s choice =>
      let file := s.1
      let a := s.2.1
      let b := s.2.2
      if choice then
        let p := stepAppend file a
        (p.1, p.2, b)
      else
        let p := stepAppend file b
        (p.1, a, p.2))
    ([], appendTaskInit txA, appendTaskInit txB)).1

/-! Derived notions and concrete inputs used by the theorems below. -/

/-- Size of the largest same-slot group of a transaction list (the
quantity named by the bundle-evidence claim). -/
def maxSlotGroupLen (transactions : List HeliusTransaction) : Nat :=
  (slotKeys transactions).foldl
    (fun m s => max m (slotGroup transactions s).length) 0

/-- Minimal transaction value: only signature, slot and timestamp are
set, every other field keeps its model default (matching a payload whose
remaining fields are empty). -/
def mkTx (sig : String) (slot ts : Int) : HeliusTransaction :=
  { signature := sig, slot := slot, timestamp := ts }

/-- Five logged transactions: two in slot 1 (first encountered), three in
slot 2; the largest same-slot group has size 3 but the first one
encountered has size 2. -/
def bundleTxs : List HeliusTransaction :=
  [mkTx "s1" 1 10, mkTx "s2" 1 20, mkTx "s3" 2 5, mkTx "s4" 2 6,
   mkTx "s5" 2 7]

/-- Metadata fetch that always succeeds with no metadata. -/
def fetchNone : String → Except String (Option TokenMetadata) :=
  fun _ => Except.ok none

/-- Pipeline state with empty logs and an empty, never-written results
store. -/
def emptyState : PipelineState :=
  { logs := fun _ => [], results := { cache := [], file := none } }

/-- Incoming transaction whose only mint reference is the token transfer
of mint m1. -/
def exTx : HeliusTransaction :=
  { signature := "sig-ex"
    slot := 100
    timestamp := 7
    tokenTransfers :=
      [{ fromTokenAccount := "fta", fromUserAccount := "fua",
         mint := "m1", toTokenAccount := "tta", toUserAccount := "tua",
         tokenAmount := 1, tokenStandard := "Fungible" }] }

/-- The single evaluation produced by running the pipeline on exTx from
the empty state. -/
def exResult : ScamDetectionResult :=
  analyzeToken "m1" [exTx] (Except.ok none) exTx

/-- Results list of that run. -/
def exResults : List ScamDetectionResult := [exResult]

/-- Final pipeline state of that run when the results-file write
succeeds. -/
def exFinalState : PipelineState :=
  { logs := fun m => if m = "m1" then logAdd [] exTx else []
    results := { cache := [("m1", exResult)]
                 file := some [("m1", exResult)] } }

/-- Final pipeline state of that run when the results-file write fails:
the cache is updated, the file is untouched. -/
def exFailState : PipelineState :=
  { logs := fun m => if m = "m1" then logAdd [] exTx else []
    results := { cache := [("m1", exResult)], file := none } }

/-- Transaction A of the concurrency scenario. -/
def txA0 : HeliusTransaction := mkTx "sigA" 100 1

/-- Transaction B of the concurrency scenario. -/
def txB0 : HeliusTransaction := mkTx "sigB" 100 2

/-- Successful metadata fetch whose URI is served from a host other than
the trusted one. -/
def fetchBad : Except String (Option TokenMetadata) :=
  Except.ok (some { mint := "m1", uri := some "https://arweave.net/x" })

/-- Transaction carrying a single 35 SOL native transfer. -/
def largeTx : HeliusTransaction :=
  { signature := "lg"
    nativeTransfers :=
      [{ amount := 35000000000, fromUserAccount := "f",
         toUserAccount := "t" }] }

/-- Transaction whose only mint references are empty strings. -/
def emptyMintTx : HeliusTransaction :=
  { signature := "em"
    slot := 3
    timestamp := 4
    tokenTransfers :=
      [{ fromTokenAccount := "fta", fromUserAccount := "fua",
         mint := "", toTokenAccount := "tta", toUserAccount := "tua",
         tokenAmount := 2, tokenStandard := "Fungible" }]
    accountData :=
      [{ account := "acc", nativeBalanceChange := 0,
         tokenBalanceChanges :=
          [{ mint := "", rawTokenAmount := { decimals := 0, tokenAmount := "1" },
             tokenAccount := "ta", userAccount := "ua" }] }] }

/-! Helper lemmas about the ordered-set folds. -/

theorem mem_listInsert {α : Type} [DecidableEq α] (xs : List α) (x a : α) :
    a ∈ listInsert xs x ↔ a ∈ xs ∨ a = x := by
  by_cases h : x ∈ xs
  · simp only [listInsert, if_pos h]
    exact ⟨Or.inl, fun h2 => h2.elim id (fun he => he ▸ h)⟩
  · simp [listInsert, if_neg h]

theorem nodup_listInsert {α : Type} [DecidableEq α] (xs : List α) (x : α)
    (h : xs.Nodup) : (listInsert xs x).Nodup := by
  by_cases hx : x ∈ xs
  · simpa [listInsert, if_pos hx] using h
  · simp [listInsert, if_neg hx, List.nodup_append, h, hx]

theorem mem_foldl_listInsert {α β : Type} [DecidableEq β] (f : α → β)
    (l : List α) :
    ∀ (acc : List β) (a : β),
      a ∈ l.foldl (fun ks x => listInsert ks (f x)) acc ↔
        a ∈ acc ∨ ∃ x ∈ l, f x = a := by
  induction l with
  | nil => simp
  | cons hd tl ih =>
    intro acc a
    rw [List.foldl_cons, ih, mem_listInsert]
    constructor
    · rintro ((h | rfl) | ⟨x, hx, rfl⟩)
      · exact Or.inl h
      · exact Or.inr ⟨hd, List.mem_cons_self hd tl, rfl⟩
      · exact Or.inr ⟨x, List.mem_cons_of_mem hd hx, rfl⟩
    · rintro (h | ⟨x, hx, rfl⟩)
      · exact Or.inl (Or.inl h)
      · rcases List.mem_cons.mp hx with rfl | hx2
        · exact Or.inl (Or.inr rfl)
        · exact Or.inr ⟨x, hx2, rfl⟩

theorem nodup_foldl_listInsert {α β : Type} [DecidableEq β] (f : α → β)
    (l : List α) :
    ∀ (acc : List β), acc.Nodup →
      (l.foldl (fun ks x => listInsert ks (f x)) acc).Nodup := by
  induction l with
  | nil => intro acc h; simpa using h
  | cons hd tl ih =>
    intro acc h
    rw [List.foldl_cons]
    exact ih _ (nodup_listInsert _ _ h)

theorem mem_mintInsert (ms : List String) (s a : String) :
    a ∈ mintInsert ms s ↔ a ∈ ms ∨ (s ≠ "" ∧ a = s) := by
  by_cases h : s = ""
  · simp [mintInsert, h]
  · simp [mintInsert, h, mem_listInsert]

theorem nodup_mintInsert (ms : List String) (s : String) (h : ms.Nodup) :
    (mintInsert ms s).Nodup := by
  by_cases hs : s = ""
  · simpa [mintInsert, hs] using h
  · simpa [mintInsert, hs] using nodup_listInsert ms s h

theorem mem_foldl_mintInsert {α : Type} (f : α → String) (l : List α) :
    ∀ (acc : List String) (a : String),
      a ∈ l.foldl (fun ms x => mintInsert ms (f x)) acc ↔
        a ∈ acc ∨ ∃ x ∈ l, f x ≠ "" ∧ f x = a := by
  induction l with
  | nil => simp
  | cons hd tl ih =>
    intro acc a
    rw [List.foldl_cons, ih, mem_mintInsert]
    constructor
    · rintro ((h | ⟨hne, rfl⟩) | ⟨x, hx, hne, rfl⟩)
      · exact Or.inl h
      · exact Or.inr ⟨hd, List.mem_cons_self hd tl, hne, rfl⟩
      · exact Or.inr ⟨x, List.mem_cons_of_mem hd hx, hne, rfl⟩
    · rintro (h | ⟨x, hx, hne, rfl⟩)
      · exact Or.inl (Or.inl h)
      · rcases List.mem_cons.mp hx with rfl | hx2
        · exact Or.inl (Or.inr ⟨hne, rfl⟩)
        · exact Or.inr ⟨x, hx2, hne, rfl⟩

theorem nodup_foldl_mintInsert {α : Type} (f : α → String) (l : List α) :
    ∀ (acc : List String), acc.Nodup →
      (l.foldl (fun ms x => mintInsert ms (f x)) acc).Nodup := by
  induction l with
  | nil => intro acc h; simpa using h
  | cons hd tl ih =>
    intro acc h
    rw [List.foldl_cons]
    exact ih _ (nodup_mintInsert _ _ h)

theorem mem_foldl_accountData (l : List AccountData) :
    ∀ (acc : List String) (a : String),
      a ∈ l.foldl
          (fun ms ad =>
            ad.tokenBalanceChanges.foldl (fun ms b => mintInsert ms b.mint) ms)
          acc ↔
        a ∈ acc ∨ ∃ ad ∈ l, ∃ b ∈ ad.tokenBalanceChanges,
          b.mint ≠ "" ∧ b.mint = a := by
  induction l with
  | nil => simp
  | cons hd tl ih =>
    intro acc a
    rw [List.foldl_cons, ih, mem_foldl_mintInsert]
    constructor
    · rintro ((h | ⟨b, hb, hne, rfl⟩) | ⟨ad, had, b, hb, hne, rfl⟩)
      · exact Or.inl h
      · exact Or.inr ⟨hd, List.mem_cons_self hd tl, b, hb, hne, rfl⟩
      · exact Or.inr ⟨ad, List.mem_cons_of_mem hd had, b, hb, hne, rfl⟩
    · rintro (h | ⟨ad, had, b, hb, hne, rfl⟩)
      · exact Or.inl (Or.inl h)
      · rcases List.mem_cons.mp had with rfl | had2
        · exact Or.inl (Or.inr ⟨b, hb, hne, rfl⟩)
        · exact Or.inr ⟨ad, had2, b, hb, hne, rfl⟩

theorem nodup_foldl_accountData (l : List AccountData) :
    ∀ (acc : List String), acc.Nodup →
      (l.foldl
        (fun ms ad =>
          ad.tokenBalanceChanges.foldl (fun ms b => mintInsert ms b.mint) ms)
        acc).Nodup := by
  induction l with
  | nil => intro acc h; simpa using h
  | cons hd tl ih =>
    intro acc h
    rw [List.foldl_cons]
    exact ih _ (nodup_foldl_mintInsert _ _ _ h)

theorem mem_extractMints (tx : HeliusTransaction) (m : String) :
    m ∈ extractMints tx ↔
      m ≠ "" ∧
        ((∃ t ∈ tx.tokenTransfers, t.mint = m) ∨
          ∃ a ∈ tx.accountData, ∃ b ∈ a.tokenBalanceChanges, b.mint = m) := by
  rw [extractMints]
  rw [mem_foldl_accountData, mem_foldl_mintInsert]
  constructor
  · rintro ((h | ⟨t, ht, hne, rfl⟩) | ⟨a, ha, b, hb, hne, rfl⟩)
    · simp at h
    · exact ⟨hne, Or.inl ⟨t, ht, rfl⟩⟩
    · exact ⟨hne, Or.inr ⟨a, ha, b, hb, rfl⟩⟩
  · rintro ⟨hne, ⟨t, ht, rfl⟩ | ⟨a, ha, b, hb, rfl⟩⟩
    · exact Or.inl (Or.inr ⟨t, ht, hne, rfl⟩)
    · exact Or.inr ⟨a, ha, b, hb, hne, rfl⟩

theorem nodup_extractMints (tx : HeliusTransaction) :
    (extractMints tx).Nodup := by
  rw [extractMints]
  exact nodup_foldl_accountData _ _
    (nodup_foldl_mintInsert _ _ _ List.nodup_nil)

theorem mem_slotKeys (transactions : List HeliusTransaction) (s : Int) :
    s ∈ slotKeys transactions ↔ ∃ tx ∈ transactions, tx.slot = s := by
  rw [slotKeys, mem_foldl_listInsert]
  simp

/-! Claim theorems. -/

/-- C1: for every result produced by the evaluation entry point
(_analyze_token), is_scam equals the logical OR of the four heuristic
flags; the reasons list is exactly the concatenation of one reason string
per triggered flag in the fixed order bundle, large-purchase,
metadata-URL, mint-suffix, so its length is the number of true flags; and
when all four flags are false, is_scam is false and the reasons list is
empty. -/
theorem c1_is_scam_iff_flags (mint : String) (txs : List HeliusTransaction)
    (fetch : Except String (Option TokenMetadata)) (ctx : HeliusTransaction) :
    (analyzeToken mint txs fetch ctx).is_scam =
        ((analyzeToken mint txs fetch ctx).has_bundle ||
         (analyzeToken mint txs fetch ctx).has_large_purchase ||
         (analyzeToken mint txs fetch ctx).invalid_metadata_url ||
         (analyzeToken mint txs fetch ctx).invalid_mint_suffix) ∧
    (analyzeToken mint txs fetch ctx).reasons =
        (if (analyzeToken mint txs fetch ctx).has_bundle then
          [bundleReason (analyzeToken mint txs fetch ctx).bundle_index_gap]
         else []) ++
        (if (analyzeToken mint txs fetch ctx).has_large_purchase then
          [largePurchaseReason (analyzeToken mint txs fetch ctx).max_purchase_sol]
         else []) ++
        (if (analyzeToken mint txs fetch ctx).invalid_metadata_url then
          [metadataReason] else []) ++
        (if (analyzeToken mint txs fetch ctx).invalid_mint_suffix then
          [suffixReason] else []) ∧
    (analyzeToken mint txs fetch ctx).reasons.length =
        ((cond (analyzeToken mint txs fetch ctx).has_bundle 1 0) +
         (cond (analyzeToken mint txs fetch ctx).has_large_purchase 1 0) +
         (cond (analyzeToken mint txs fetch ctx).invalid_metadata_url 1 0) +
         (cond (analyzeToken mint txs fetch ctx).invalid_mint_suffix 1 0)) ∧
    ((analyzeToken mint txs fetch ctx).has_bundle = false ∧
     (analyzeToken mint txs fetch ctx).has_large_purchase = false ∧
     (analyzeToken mint txs fetch ctx).invalid_metadata_url = false ∧
     (analyzeToken mint txs fetch ctx).invalid_mint_suffix = false →
      (analyzeToken mint txs fetch ctx).is_scam = false ∧
      (analyzeToken mint txs fetch ctx).reasons = []) := by
  dsimp only [analyzeToken]
  cases hcb : (checkBundlePattern txs).1 <;>
    cases hcl : (checkLargePurchase txs).1 <;>
      cases hm : checkMetadataUrl fetch <;>
        cases hs : checkMintSuffix mint <;> simp

/-- Witness for C1 at a concrete mint, empty log and failed fetch: the
only triggered heuristic is the mint suffix, so is_scam is true with one
reason. -/
theorem c1_is_scam_iff_flags_witness :
    (analyzeToken "notpumpsuffix" [] (Except.error "boom") exTx).is_scam =
        ((analyzeToken "notpumpsuffix" [] (Except.error "boom") exTx).has_bundle ||
         (analyzeToken "notpumpsuffix" [] (Except.error "boom") exTx).has_large_purchase ||
         (analyzeToken "notpumpsuffix" [] (Except.error "boom") exTx).invalid_metadata_url ||
         (analyzeToken "notpumpsuffix" [] (Except.error "boom") exTx).invalid_mint_suffix) ∧
    (analyzeToken "notpumpsuffix" [] (Except.error "boom") exTx).reasons.length = 1 := by
  refine ⟨(c1_is_scam_iff_flags "notpumpsuffix" [] (Except.error "boom") exTx).1, ?_⟩
  have h := (c1_is_scam_iff_flags "notpumpsuffix" [] (Except.error "boom") exTx).2.2.1
  rw [h]
  decide

/-- C5: appending a transaction and then a second transaction with the
same signature via the add_transaction dedup logic is a no-op for the
second append; starting from a log holding no entry with that signature,
the final log holds exactly one entry with it. -/
theorem c5_append_idempotent (log : List HeliusTransaction)
    (tx tx2 : HeliusTransaction) (h : tx2.signature = tx.signature) :
    logAdd (logAdd log tx) tx2 = logAdd log tx ∧
    ((log.filter (fun t => t.signature = tx.signature)).length = 0 →
      ((logAdd (logAdd log tx) tx2).filter
        (fun t => t.signature = tx.signature)).length = 1) := by
  have hmem : (logAdd log tx).any (fun t => t.signature = tx2.signature) = true := by
    by_cases hl : log.any (fun t => t.signature = tx.signature) = true
    · simp only [logAdd, if_pos hl, h]
      exact hl
    · simp only [logAdd, if_neg hl]
      simp [h]
  have heq : logAdd (logAdd log tx) tx2 = logAdd log tx := by
    have hdef : logAdd (logAdd log tx) tx2 =
        if (logAdd log tx).any (fun t => t.signature = tx2.signature) = true
        then logAdd log tx else (logAdd log tx) ++ [tx2] := rfl
    rw [hdef, if_pos hmem]
  refine ⟨heq, fun h0 => ?_⟩
  rw [List.length_eq_zero] at h0
  have hl : ¬(log.any (fun t => t.signature = tx.signature) = true) := by
    intro hc
    rw [List.any_eq_true] at hc
    obtain ⟨t, ht, hp⟩ := hc
    have hmem2 : t ∈ log.filter (fun t => t.signature = tx.signature) :=
      List.mem_filter.mpr ⟨ht, hp⟩
    rw [h0] at hmem2
    simp at hmem2
  have h1 : logAdd log tx = log ++ [tx] := by
    have hdef : logAdd log tx =
        if log.any (fun t => t.signature = tx.signature) = true
        then log else log ++ [tx] := rfl
    rw [hdef, if_neg hl]
  rw [heq, h1, List.filter_append, List.length_append, h0]
  simp

/-- Witness for C5: appending the same signature twice onto the empty
log. -/
theorem c5_append_idempotent_witness :
    logAdd (logAdd [] (mkTx "sg" 5 1)) (mkTx "sg" 5 2) =
      logAdd [] (mkTx "sg" 5 1) ∧
    ((logAdd (logAdd [] (mkTx "sg" 5 1)) (mkTx "sg" 5 2)).filter
      (fun t => t.signature = (mkTx "sg" 5 1).signature)).length = 1 := by
  have h := c5_append_idempotent [] (mkTx "sg" 5 1) (mkTx "sg" 5 2) rfl
  exact ⟨h.1, h.2 (by decide)⟩

/-! Maximum-fold lemmas for the large-purchase heuristic. -/

theorem if_lt_eq_max (a b : Rat) : (if a < b then b else a) = max a b := by
  rcases le_or_lt b a with h | h
  · rw [if_neg (not_lt.mpr h), max_eq_left h]
  · rw [if_pos h, max_eq_right h.le]

theorem foldl_if_max (l : List Rat) :
    ∀ init : Rat,
      l.foldl (fun m s => if m < s then s else m) init = l.foldl max init := by
  induction l with
  | nil => intro init; rfl
  | cons a t ih =>
    intro init
    rw [List.foldl_cons, List.foldl_cons, if_lt_eq_max, ih]

theorem init_le_foldl_max (l : List Rat) :
    ∀ init : Rat, init ≤ l.foldl max init := by
  induction l with
  | nil => intro init; simp
  | cons a t ih =>
    intro init
    rw [List.foldl_cons]
    exact le_trans (le_max_left init a) (ih _)

theorem mem_le_foldl_max (l : List Rat) :
    ∀ (init a : Rat), a ∈ l → a ≤ l.foldl max init := by
  induction l with
  | nil => intro init a h; simp at h
  | cons b t ih =>
    intro init a h
    rcases List.mem_cons.mp h with rfl | h2
    · rw [List.foldl_cons]
      exact le_trans (le_max_right init a) (init_le_foldl_max t _)
    · rw [List.foldl_cons]
      exact ih _ a h2

theorem foldl_max_attained (l : List Rat) :
    ∀ init : Rat, l.foldl max init = init ∨ l.foldl max init ∈ l := by
  induction l with
  | nil => intro init; exact Or.inl rfl
  | cons a t ih =>
    intro init
    rw [List.foldl_cons]
    rcases ih (max init a) with h | h
    · rcases max_choice init a with h2 | h2
      · exact Or.inl (h.trans h2)
      · exact Or.inr (by rw [h, h2]; exact List.mem_cons_self a t)
    · exact Or.inr (List.mem_cons_of_mem a h)

theorem lt_foldl_max_iff (l : List Rat) (c : Rat) :
    ∀ init : Rat, c < l.foldl max init ↔ c < init ∨ ∃ a ∈ l, c < a := by
  induction l with
  | nil => intro init; simp
  | cons a t ih =>
    intro init
    rw [List.foldl_cons, ih, lt_max_iff]
    constructor
    · rintro ((h | h) | ⟨b, hb, hcb⟩)
      · exact Or.inl h
      · exact Or.inr ⟨a, List.mem_cons_self a t, h⟩
      · exact Or.inr ⟨b, List.mem_cons_of_mem a hb, hcb⟩
    · rintro (h | ⟨b, hb, hcb⟩)
      · exact Or.inl (Or.inl h)
      · rcases List.mem_cons.mp hb with rfl | hb2
        · exact Or.inl (Or.inr hcb)
        · exact Or.inr ⟨b, hb2, hcb⟩

/-- C3: the large-purchase flag is true exactly when some native-transfer
amount divided by 10^9 strictly exceeds the 30 SOL threshold; when true
the evidence equals the maximum of those amounts (an attained upper
bound), and when false the evidence is None, never zero. -/
theorem c3_large_purchase (txs : List HeliusTransaction) :
    ((checkLargePurchase txs).1 = true ↔
      ∃ a ∈ solAmounts txs, LARGE_PURCHASE_THRESHOLD_SOL < a) ∧
    ((checkLargePurchase txs).1 = true →
      (checkLargePurchase txs).2 = some ((solAmounts txs).foldl max 0) ∧
      ((solAmounts txs).foldl max 0) ∈ solAmounts txs ∧
      ∀ a ∈ solAmounts txs, a ≤ (solAmounts txs).foldl max 0) ∧
    ((checkLargePurchase txs).1 = false →
      (checkLargePurchase txs).2 = none) := by
  have h30 : ¬(LARGE_PURCHASE_THRESHOLD_SOL < (0 : Rat)) := by
    rw [LARGE_PURCHASE_THRESHOLD_SOL]
    norm_num
  have hdef : checkLargePurchase txs =
      if LARGE_PURCHASE_THRESHOLD_SOL < (solAmounts txs).foldl max 0
      then (true, some ((solAmounts txs).foldl max 0)) else (false, none) := by
    have hfold := foldl_if_max (solAmounts txs) 0
    dsimp only [checkLargePurchase]
    rw [hfold]
  by_cases hlt : LARGE_PURCHASE_THRESHOLD_SOL < (solAmounts txs).foldl max 0
  · rw [hdef, if_pos hlt]
    refine ⟨⟨fun _ => ?_, fun _ => rfl⟩, fun _ => ⟨rfl, ?_, ?_⟩, fun hf => by simp at hf⟩
    · rcases (lt_foldl_max_iff (solAmounts txs)
          LARGE_PURCHASE_THRESHOLD_SOL 0).mp hlt with h | h
      · exact absurd h h30
      · exact h
    · rcases foldl_max_attained (solAmounts txs) 0 with h | h
      · rw [h] at hlt; exact absurd hlt h30
      · exact h
    · intro a ha
      exact mem_le_foldl_max (solAmounts txs) 0 a ha
  · rw [hdef, if_neg hlt]
    refine ⟨⟨fun hf => by simp at hf, fun he => ?_⟩,
      fun hf => by simp at hf, fun _ => rfl⟩
    obtain ⟨a, ha, hca⟩ := he
    exact absurd ((lt_foldl_max_iff (solAmounts txs)
      LARGE_PURCHASE_THRESHOLD_SOL 0).mpr (Or.inr ⟨a, ha, hca⟩)) hlt

/-- Witness for C3: a single 35 SOL transfer triggers the flag with
evidence 35. -/
theorem c3_large_purchase_witness :
    (checkLargePurchase [largeTx]).1 = true ∧
    (checkLargePurchase [largeTx]).2 = some 35 := by
  have hsol : solAmounts [largeTx] = [(35 : Rat)] := by
    rw [solAmounts, largeTx]
    simp [LAMPORTS_PER_SOL]
    norm_num
  have h := c3_large_purchase [largeTx]
  have h1 : (checkLargePurchase [largeTx]).1 = true := by
    refine h.1.mpr ⟨35, ?_, ?_⟩
    · rw [hsol]; exact List.mem_singleton_self 35
    · rw [LARGE_PURCHASE_THRESHOLD_SOL]; norm_num
  refine ⟨h1, ?_⟩
  have h2 := (h.2.1 h1).1
  rw [h2, hsol]
  norm_num

/-- C2 (amended): fewer than 2 transactions yields no bundle flag and no
evidence; the flag is true exactly when some slot holds at least 2 of the
transactions; when the flag is false the evidence is absent; and the
evidence is the size of the first same-slot group, in first-occurrence
order of the slots, holding at least 2 transactions (not necessarily the
largest such group). -/
theorem c2_bundle_pattern (txs : List HeliusTransaction) :
    (txs.length < 2 → checkBundlePattern txs = (false, none)) ∧
    ((checkBundlePattern txs).1 = true ↔
      ∃ s : Int, 2 ≤ (slotGroup txs s).length) ∧
    ((checkBundlePattern txs).1 = false →
      (checkBundlePattern txs).2 = none) ∧
    (∀ n : Nat, (checkBundlePattern txs).2 = some n →
      2 ≤ n ∧
      ((slotKeys txs).find? (fun s => 2 ≤ (slotGroup txs s).length)).map
          (fun s => (slotGroup txs s).length) = some n) := by
  have hgroup_mem : ∀ s : Int, 2 ≤ (slotGroup txs s).length →
      ∃ tx ∈ txs, tx.slot = s := by
    intro s hs
    have hne : slotGroup txs s ≠ [] := by
      intro he
      rw [he] at hs
      simp at hs
    obtain ⟨tx, htx⟩ := List.exists_mem_of_ne_nil _ hne
    have h2 := List.mem_filter.mp htx
    exact ⟨tx, h2.1, by simpa using h2.2⟩
  have hgroup_len : ∀ s : Int, (slotGroup txs s).length ≤ txs.length :=
    fun s => List.length_filter_le _ txs
  by_cases hlen : txs.length < 2
  · have hval : checkBundlePattern txs = (false, none) := by
      simp only [checkBundlePattern, if_pos hlen]
    rw [hval]
    refine ⟨fun _ => rfl, ?_, fun _ => rfl, fun n hn => by simp at hn⟩
    refine ⟨fun h => absurd h (by simp), fun he => ?_⟩
    obtain ⟨s, hs⟩ := he
    exact absurd (le_trans hs (hgroup_len s)) (by omega)
  · cases hf : (slotKeys txs).find? (fun s => 2 ≤ (slotGroup txs s).length) with
    | some s =>
      have hval : checkBundlePattern txs =
          (true, some (slotGroup txs s).length) := by
        simp only [checkBundlePattern, if_neg hlen, hf]
      have hps : 2 ≤ (slotGroup txs s).length := by
        have := List.find?_some hf
        simpa using this
      rw [hval]
      refine ⟨fun h => absurd h hlen, ?_, fun h => by simp at h,
        fun n hn => ?_⟩
      · exact ⟨fun _ => ⟨s, hps⟩, fun _ => rfl⟩
      · have hn2 : (slotGroup txs s).length = n := by
          simpa using hn
      
        exact ⟨hn2 ▸ hps, by simpa using hn2⟩
    | none =>
      have hval : checkBundlePattern txs = (false, none) := by
        simp only [checkBundlePattern, if_neg hlen, hf]
      rw [hval]
      refine ⟨fun h => absurd h hlen, ?_, fun _ => rfl,
        fun n hn => by simp at hn⟩
      refine ⟨fun h => absurd h (by simp), fun he => ?_⟩
      obtain ⟨s, hs⟩ := he
      obtain ⟨tx, htx, hslot⟩ := hgroup_mem s hs
      have hmem : s ∈ slotKeys txs := (mem_slotKeys txs s).mpr ⟨tx, htx, hslot⟩
      have hnone := List.find?_eq_none.mp hf s hmem
      simp at hnone
      exact absurd hs (by omega)

/-- Witness for C2: the concrete five-transaction log triggers the bundle
flag. -/
theorem c2_bundle_pattern_witness :
    (checkBundlePattern bundleTxs).1 = true :=
  (c2_bundle_pattern bundleTxs).2.1.mpr ⟨1, by decide⟩

/-- Counterexample for C2 as frozen: on bundleTxs the first same-slot
group with at least 2 members has size 2, the largest same-slot group has
size 3, and the evidence reported is 2, not the largest group size. -/
theorem c2_largest_group_counterexample :
    (checkBundlePattern bundleTxs).1 = true ∧
    maxSlotGroupLen bundleTxs = 3 ∧
    (checkBundlePattern bundleTxs).2 = some 2 ∧
    (checkBundlePattern bundleTxs).2 ≠ some (maxSlotGroupLen bundleTxs) := by
  decide

/-- C4: the metadata heuristic is true exactly when the fetch succeeded
with metadata carrying a non-empty URI whose case-insensitive form does
not start with the trusted ipfs.io prefix; a fetch exception yields
false, a missing API credential (empty key short-circuits the client to
None) yields false, and whatever the fetch outcome, the other three
heuristics of _analyze_token are still evaluated to their own values. -/
theorem c4_metadata_url (fetch : Except String (Option TokenMetadata)) :
    (checkMetadataUrl fetch = true ↔
      ∃ md : TokenMetadata, fetch = Except.ok (some md) ∧
        ∃ u : String, md.uri = some u ∧ u ≠ "" ∧
          strStartsWith (strToLower u) "https://ipfs.io/" = false) ∧
    (∀ resp : Except String (Option TokenMetadata),
      checkMetadataUrl (Except.ok (getTokenMetadata "" resp)) = false) ∧
    (∀ e : String, checkMetadataUrl (Except.error e) = false) ∧
    (∀ (mint : String) (txs : List HeliusTransaction)
        (ctx : HeliusTransaction),
      (analyzeToken mint txs fetch ctx).invalid_metadata_url =
          checkMetadataUrl fetch ∧
      (analyzeToken mint txs fetch ctx).has_bundle =
          (checkBundlePattern txs).1 ∧
      (analyzeToken mint txs fetch ctx).has_large_purchase =
          (checkLargePurchase txs).1 ∧
      (analyzeToken mint txs fetch ctx).invalid_mint_suffix =
          checkMintSuffix mint) := by
  refine ⟨?_, fun resp => rfl, fun e => rfl,
    fun mint txs ctx => ⟨rfl, rfl, rfl, rfl⟩⟩
  constructor
  · intro h
    rcases fetch with e | md
    · simp [checkMetadataUrl] at h
    · rcases md with _ | md
      · simp [checkMetadataUrl] at h
      · rcases hu : md.uri with _ | u
        · rw [checkMetadataUrl] at h
          simp [hu] at h
        · by_cases he : u = ""
          · rw [checkMetadataUrl] at h
            simp [hu, he] at h
          · refine ⟨md, rfl, u, hu, he, ?_⟩
            rw [checkMetadataUrl] at h
            simp [hu, he] at h
            exact h
  · rintro ⟨md, rfl, u, hu, hne, hsw⟩
    rw [checkMetadataUrl]
    simp [hu, hne, hsw]

/-- Witness for C4: a successfully fetched URI on a non-trusted host
makes the heuristic fire. -/
theorem c4_metadata_url_witness : checkMetadataUrl fetchBad = true := by
  refine (c4_metadata_url fetchBad).1.mpr
    ⟨{ mint := "m1", uri := some "https://arweave.net/x" }, rfl,
      "https://arweave.net/x", rfl, by decide, by decide⟩

/-! Pipeline run lemmas. -/

theorem saveResult_ok (store : ResultsStore) (r : ScamDetectionResult)
    (w : Bool) : ∃ s : ResultsStore, saveResult store r w = Except.ok s := by
  cases w
  · exact ⟨_, rfl⟩
  · exact ⟨_, rfl⟩

theorem foldl_processMint
    (fetch : String → Except String (Option TokenMetadata))
    (wOk : Bool) (tx : HeliusTransaction)
    (base : String → List HeliusTransaction) :
    ∀ (ms : List String), ms.Nodup →
      ∀ (acc : List ScamDetectionResult) (st : PipelineState),
        (∀ m ∈ ms, st.logs m = base m) →
        ∃ stf : PipelineState,
          ms.foldlM (processMint fetch wOk tx) (acc, st) =
            Except.ok
              (acc ++ ms.map
                (fun m => analyzeToken m (logAdd (base m) tx) (fetch m) tx),
               stf) := by
  intro ms
  induction ms with
  | nil =>
    intro _ acc st _
    refine ⟨st, ?_⟩
    rw [List.foldlM_nil, List.map_nil, List.append_nil]
    rfl
  | cons m ms ih =>
    intro hnd acc st hagree
    obtain ⟨hm_notin, hnd2⟩ := List.nodup_cons.mp hnd
    obtain ⟨res1, hres⟩ := saveResult_ok st.results
      (analyzeToken m (logAdd (st.logs m) tx) (fetch m) tx) wOk
    have hstep : processMint fetch wOk tx (acc, st) m =
        Except.ok
          (acc ++ [analyzeToken m (logAdd (st.logs m) tx) (fetch m) tx],
           { logs := fun m2 =>
               if m2 = m then logAdd (st.logs m) tx else st.logs m2
             results := res1 }) := by
      dsimp only [processMint]
      have he : (if m = m then logAdd (st.logs m) tx else st.logs m) =
          logAdd (st.logs m) tx := if_pos rfl
      rw [he, hres]
    have hagree1 : ∀ m2 ∈ ms,
        (if m2 = m then logAdd (st.logs m) tx else st.logs m2) = base m2 := by
      intro m2 hm2
      have hne : m2 ≠ m := fun heq => hm_notin (heq ▸ hm2)
      rw [if_neg hne]
      exact hagree m2 (List.mem_cons_of_mem m hm2)
    obtain ⟨stf, hrec⟩ := ih hnd2
      (acc ++ [analyzeToken m (logAdd (st.logs m) tx) (fetch m) tx])
      { logs := fun m2 =>
          if m2 = m then logAdd (st.logs m) tx else st.logs m2
        results := res1 }
      hagree1
    refine ⟨stf, ?_⟩
    have hbase : st.logs m = base m := hagree m (List.mem_cons_self m ms)
    have h1 : (m :: ms).foldlM (processMint fetch wOk tx) (acc, st) =
        ms.foldlM (processMint fetch wOk tx)
          (acc ++ [analyzeToken m (logAdd (st.logs m) tx) (fetch m) tx],
           { logs := fun m2 =>
               if m2 = m then logAdd (st.logs m) tx else st.logs m2
             results := res1 }) := by
      rw [List.foldlM_cons, hstep]
      rfl
    rw [h1, hrec, hbase]
    simp

theorem analyzeTransaction_run
    (fetch : String → Except String (Option TokenMetadata)) (wOk : Bool)
    (st : PipelineState) (tx : HeliusTransaction) :
    ∃ stf : PipelineState,
      analyzeTransaction fetch wOk st tx =
        Except.ok
          ((extractMints tx).map
            (fun m => analyzeToken m (logAdd (st.logs m) tx) (fetch m) tx),
           stf) := by
  obtain ⟨stf, h⟩ := foldl_processMint fetch wOk tx st.logs
    (extractMints tx) (nodup_extractMints tx) [] st (fun _ _ => rfl)
  exact ⟨stf, by simpa [analyzeTransaction] using h⟩

/-- C6: mint extraction returns exactly the distinct non-empty mint
identifiers referenced by the token transfers and the account
balance-change records (duplicate-free, membership characterized
independent of order); when no mint is extracted the pipeline returns an
empty result list and leaves the state untouched, with no error. -/
theorem c6_extract_mints (tx : HeliusTransaction) :
    (∀ m : String, m ∈ extractMints tx ↔
      m ≠ "" ∧ ((∃ t ∈ tx.tokenTransfers, t.mint = m) ∨
        ∃ a ∈ tx.accountData, ∃ b ∈ a.tokenBalanceChanges, b.mint = m)) ∧
    (extractMints tx).Nodup ∧
    (extractMints tx = [] →
      ∀ (fetch : String → Except String (Option TokenMetadata))
        (wOk : Bool) (st : PipelineState),
        analyzeTransaction fetch wOk st tx = Except.ok ([], st)) := by
  refine ⟨mem_extractMints tx, nodup_extractMints tx,
    fun hemp fetch wOk st => ?_⟩
  rw [analyzeTransaction, hemp]
  rfl

/-- Witness for C6: the pipeline on exTx extracts mint m1, and a
transaction with no token data yields the empty run. -/
theorem c6_extract_mints_witness :
    "m1" ∈ extractMints exTx ∧
    analyzeTransaction fetchNone true emptyState (mkTx "lone" 1 1) =
      Except.ok ([], emptyState) := by
  constructor
  · exact ((c6_extract_mints exTx).1 "m1").mpr (by decide)
  · exact (c6_extract_mints (mkTx "lone" 1 1)).2.2 (by decide)
      fetchNone true emptyState

/-- C10: a token transfer or balance-change record whose mint is the
empty string contributes no mint, so a transaction whose only mint
references are empty strings yields an empty extraction set and an empty
pipeline result list with the state untouched. -/
theorem c10_empty_mint_ignored (tx : HeliusTransaction)
    (h1 : ∀ t ∈ tx.tokenTransfers, t.mint = "")
    (h2 : ∀ a ∈ tx.accountData, ∀ b ∈ a.tokenBalanceChanges, b.mint = "") :
    extractMints tx = [] ∧
    ∀ (fetch : String → Except String (Option TokenMetadata))
      (wOk : Bool) (st : PipelineState),
      analyzeTransaction fetch wOk st tx = Except.ok ([], st) := by
  have hemp : extractMints tx = [] := by
    rw [List.eq_nil_iff_forall_not_mem]
    intro m hm
    obtain ⟨hne, hor⟩ := (mem_extractMints tx m).mp hm
    rcases hor with ⟨t, ht, heq⟩ | ⟨a, ha, b, hb, heq⟩
    · exact hne (heq ▸ h1 t ht)
    · exact hne (heq ▸ h2 a ha b hb)
  refine ⟨hemp, fun fetch wOk st => ?_⟩
  rw [analyzeTransaction, hemp]
  rfl

/-- Witness for C10: a transaction with one empty-mint token transfer and
one empty-mint balance change extracts nothing and produces no result. -/
theorem c10_empty_mint_ignored_witness :
    extractMints emptyMintTx = [] ∧
    analyzeTransaction fetchNone false emptyState emptyMintTx =
      Except.ok ([], emptyState) := by
  have h := c10_empty_mint_ignored emptyMintTx (by decide) (by decide)
  exact ⟨h.1, h.2 fetchNone false emptyState⟩

/-- Counterexample for C7 as frozen: running the pipeline on exTx with the
results-file write failing returns Except.ok — no error is surfaced to
the caller — while the classification list is produced and the results
file keeps its prior (never-written) content; the persist failure is
silently dropped. -/
theorem c7_persist_failure_counterexample :
    (analyzeTransaction fetchNone false emptyState exTx).map
        (fun p => (p.1, p.2.results.file)) =
      Except.ok ([exResult], none) ∧
    exResult.mint = "m1" := ⟨rfl, rfl⟩

/-- C7 (amended): a failing results-file write inside save_result is
caught and logged, never surfaced: save_result still returns normally
with the in-memory cache updated and the file unchanged, and the result
list returned by the pipeline is identical whether the persist write
succeeds or fails. -/
theorem c7_persist_failure_swallowed :
    (∀ (store : ResultsStore) (r : ScamDetectionResult),
      saveResult store r false =
        Except.ok { cache := cachePut store.cache r.mint r,
                    file := store.file }) ∧
    ∀ (fetch : String → Except String (Option TokenMetadata))
      (st : PipelineState) (tx : HeliusTransaction),
      (analyzeTransaction fetch false st tx).map Prod.fst =
        (analyzeTransaction fetch true st tx).map Prod.fst := by
  refine ⟨fun store r => rfl, fun fetch st tx => ?_⟩
  obtain ⟨s1, h1⟩ := analyzeTransaction_run fetch false st tx
  obtain ⟨s2, h2⟩ := analyzeTransaction_run fetch true st tx
  rw [h1, h2]
  rfl

/-- Witness for C7 (amended) at a concrete store and result. -/
theorem c7_persist_failure_swallowed_witness :
    saveResult { cache := [], file := none } exResult false =
      Except.ok { cache := cachePut [] exResult.mint exResult,
                  file := none } :=
  c7_persist_failure_swallowed.1 { cache := [], file := none } exResult

/-- C8: every result produced by a pipeline run has last_updated equal to
the current transaction's timestamp, total_transactions equal to the size
of the mint's log after the current append, and first_seen equal to the
minimum timestamp over that log (falling back to the current
transaction's timestamp were the log empty). -/
theorem c8_timestamp_aggregates
    (fetch : String → Except String (Option TokenMetadata)) (wOk : Bool)
    (st : PipelineState) (tx : HeliusTransaction)
    (results : List ScamDetectionResult) (stf : PipelineState)
    (h : analyzeTransaction fetch wOk st tx = Except.ok (results, stf)) :
    ∀ r ∈ results,
      r.last_updated = some tx.timestamp ∧
      r.total_transactions = (logAdd (st.logs r.mint) tx).length ∧
      r.first_seen =
        some ((((logAdd (st.logs r.mint) tx).map
          (fun t => t.timestamp)).min?).getD tx.timestamp) := by
  obtain ⟨stf2, h2⟩ := analyzeTransaction_run fetch wOk st tx
  rw [h] at h2
  have hres : results = (extractMints tx).map
      (fun m => analyzeToken m (logAdd (st.logs m) tx) (fetch m) tx) := by
    have h3 := Except.ok.inj h2
    exact congrArg Prod.fst h3
  intro r hr
  rw [hres] at hr
  obtain ⟨m, _, rfl⟩ := List.mem_map.mp hr
  exact ⟨rfl, rfl, rfl⟩

/-- Witness for C8: the concrete run of exTx from the empty state. -/
theorem c8_timestamp_aggregates_witness :
    exResult.last_updated = some exTx.timestamp ∧
    exResult.total_transactions =
      (logAdd (emptyState.logs exResult.mint) exTx).length ∧
    exResult.first_seen =
      some ((((logAdd (emptyState.logs exResult.mint) exTx).map
        (fun t => t.timestamp)).min?).getD exTx.timestamp) := by
  have h := c8_timestamp_aggregates fetchNone true emptyState exTx
    exResults exFinalState rfl exResult (List.mem_singleton_self exResult)
  exact h

/-- Counterexample for C9 as frozen: interleaving two unlocked
add_transaction calls for the same mint (both reads before both writes)
leaves the file holding only the second append; neither serial order
produces that content, so the append path is not serialized per mint and
an earlier append is lost. -/
theorem c9_not_serialized_counterexample :
    runAppendSchedule [true, false, true, false] txA0 txB0 = [txB0] ∧
    runAppendSchedule [true, true, false, false] txA0 txB0 = [txA0, txB0] ∧
    runAppendSchedule [false, false, true, true] txA0 txB0 = [txB0, txA0] ∧
    runAppendSchedule [true, false, true, false] txA0 txB0 ≠
      runAppendSchedule [true, true, false, false] txA0 txB0 ∧
    runAppendSchedule [true, false, true, false] txA0 txB0 ≠
      runAppendSchedule [false, false, true, true] txA0 txB0 := by
  decide

/-- C9 (amended): add_transaction takes no lock, so for any two
transactions with distinct signatures the read-read-write-write
interleaving of two concurrent appends for the same mint rewrites the
file from a stale snapshot: the final log is just the second transaction,
which differs from the outcome of either serial execution — the
append-then-read sequence is not a per-mint critical section. -/
theorem c9_concurrent_append_lost_update (txA txB : HeliusTransaction)
    (h : txA.signature ≠ txB.signature) :
    runAppendSchedule [true, false, true, false] txA txB = [txB] ∧
    runAppendSchedule [true, true, false, false] txA txB = [txA, txB] ∧
    runAppendSchedule [false, false, true, true] txA txB = [txB, txA] ∧
    runAppendSchedule [true, false, true, false] txA txB ≠
      runAppendSchedule [true, true, false, false] txA txB ∧
    runAppendSchedule [true, false, true, false] txA txB ≠
      runAppendSchedule [false, false, true, true] txA txB := by
  have h2 : txB.signature ≠ txA.signature := Ne.symm h
  have e1 : runAppendSchedule [true, false, true, false] txA txB =
      [txB] := rfl
  have e2 : runAppendSchedule [true, true, false, false] txA txB =
      logAdd [txA] txB := rfl
  have e3 : runAppendSchedule [false, false, true, true] txA txB =
      logAdd [txB] txA := rfl
  have l2 : logAdd [txA] txB = [txA, txB] := by
    simp [logAdd, h]
  have l3 : logAdd [txB] txA = [txB, txA] := by
    simp [logAdd, h2]
  refine ⟨e1, e2.trans l2, e3.trans l3, ?_, ?_⟩
  · rw [e1, e2, l2]
    simp
  · rw [e1, e3, l3]
    simp

/-- Witness for C9 (amended): the two concrete transactions of the
concurrency scenario. -/
theorem c9_concurrent_append_lost_update_witness :
    txA0.signature ≠ txB0.signature ∧
    runAppendSchedule [true, false, true, false] txA0 txB0 ≠
      runAppendSchedule [true, true, false, false] txA0 txB0 :=
  ⟨by decide, (c9_concurrent_append_lost_update txA0 txB0 (by decide)).2.2.2.1⟩
